import Mathlib

/-!
Verification of the Streamlit UI wrapper around an AutoGen AgentChat agent
(src/career-mentor-agent.py), as a shallow embedding: Python strings are
lists of characters, the streamed autogen values are a closed inductive
type, and the Streamlit session state is an explicit record threaded
through the handlers.
-/

/-- Python strings, embedded as lists of characters. -/
abbrev PyStr := List Char

/-- The termination literal 'TERMINATE' used in `_handle_text_message` and in
the TextMentionTermination condition of `initialize_agent`. -/
def TERMINATE : PyStr := ['T', 'E', 'R', 'M', 'I', 'N', 'A', 'T', 'E']

/-- Python str.startswith on character lists: the first argument is the
pattern, the second the string. -/
def startsWith : PyStr → PyStr → Bool
  | [], _ => true
  | _ :: _, [] => false
  | p :: ps, c :: cs => p == c && startsWith ps cs

/-- Python substring containment (`pat in s`). -/
def containsSub (pat : PyStr) : PyStr → Bool
  | [] => pat.isEmpty
  | s@(_ :: rest) => startsWith pat s || containsSub pat rest

/-- Fuel-indexed worker for `removeTok`; the fuel only forces structural
recursion and is always at least the length of the string (see
`removeTokFuel_congr`). -/
def removeTokFuel : Nat → PyStr → PyStr
  | 0, s => s
  | _ + 1, [] => []
  | fuel + 1, c :: rest =>
    if startsWith TERMINATE (c :: rest) then
      removeTokFuel fuel ((c :: rest).drop TERMINATE.length)
    else c :: removeTokFuel fuel rest

/-- Python `msg.content.replace('TERMINATE', '')` from `_handle_text_message`:
one left-to-right pass removing non-overlapping occurrences; text formed at
a removal junction is not rescanned. -/
def removeTok (s : PyStr) : PyStr := removeTokFuel s.length s

/-- Python whitespace, for str.strip(). -/
def isPySpace (c : Char) : Bool :=
  c == ' ' || c == '\t' || c == '\n' || c == '\r' || c == '\x0b' || c == '\x0c'

/-- Python str.strip() with no arguments. -/
def pyStrip (s : PyStr) : PyStr :=
  ((s.dropWhile isPySpace).reverse.dropWhile isPySpace).reverse

/-- One function call requested by the model (autogen FunctionCall: a tool
name and a JSON-encoded argument string). -/
structure ToolCall where
  name : PyStr
  arguments : PyStr
deriving DecidableEq

/-- The chat_message wrapped by an autogen Response: either a TextMessage
(with source and content) or a message of any other type. -/
inductive WrappedMsg
  | text (source : PyStr) (content : PyStr)
  | nonText
deriving DecidableEq

/-- The streamed values dispatched on by `_track_response_on_streamlit`:
ToolCallRequestEvent, TextMessage, Response, or anything else. -/
inductive StreamedEvent
  | toolCallRequest (source : PyStr) (calls : List ToolCall)
  | textMessage (source : PyStr) (content : PyStr)
  | response (wrapped : WrappedMsg)
  | other
deriving DecidableEq

/-- One element of `st.session_state["messages"]`. -/
structure ChatEntry where
  role : PyStr
  content : PyStr
deriving DecidableEq

/-- Displayed text built by `_handle_text_message`:
the f-string interpolation of the source and of
`msg.content.replace('TERMINATE', '').strip()`. -/
def formatTextMessage (source content : PyStr) : PyStr :=
  "**[".toList ++ source ++ "]**\n".toList ++ pyStrip (removeTok content)

/-- One bulleted item of a tool-call entry (the stray parenthesis before the
closing backtick is in the source's f-string). -/
def formatToolCall (tc : ToolCall) : PyStr :=
  "`".toList ++ tc.name ++ "` with arguments `".toList ++ tc.arguments ++ ")`".toList

/-- Python "sep".join(items). -/
def joinSep (sep : PyStr) : List PyStr → PyStr
  | [] => []
  | [x] => x
  | x :: xs => x ++ sep ++ joinSep sep xs

/-- Content built for a ToolCallRequestEvent: the header f-string followed by
the "\n- "-join of the formatted calls. -/
def formatToolCallRequest (source : PyStr) (calls : List ToolCall) : PyStr :=
  "**[".toList ++ source ++ "] Tool calls requested:**\n- ".toList ++
    joinSep "\n- ".toList (calls.map formatToolCall)

/-- The per-call bulleted segments of a tool-call entry: one segment per
requested call, each holding that call's name and arguments. -/
def bulletConcat : List ToolCall → PyStr
  | [] => []
  | tc :: tcs => "\n- ".toList ++ formatToolCall tc ++ bulletConcat tcs

/-- `_track_response_on_streamlit`, as the transformation it applies to
`st.session_state["messages"]`; the immediate `st.markdown` render mirrors
the appended entry and carries no further state. -/
def trackResponse (history : List ChatEntry) : StreamedEvent → List ChatEntry
  | .toolCallRequest source calls =>
      history ++ [⟨"assistant".toList, formatToolCallRequest source calls⟩]
  | .textMessage source content =>
      if source = "user".toList then history
      else history ++ [⟨"assistant".toList, formatTextMessage source content⟩]
  | .response (.text source content) =>
      history ++ [⟨"assistant".toList, formatTextMessage source content⟩]
  | .response .nonText => history
  | .other => history

/-- Folding `_track_response_on_streamlit` over a whole streamed turn. -/
def trackStream (history : List ChatEntry) : List StreamedEvent → List ChatEntry
  | [] => history
  | e :: es => trackStream (trackResponse history e) es

/-- Whether `_track_response_on_streamlit` appends an entry for an event. -/
def rendersEntry : StreamedEvent → Bool
  | .toolCallRequest _ _ => true
  | .textMessage source _ => !(source == "user".toList)
  | .response (.text _ _) => true
  | .response .nonText => false
  | .other => false

/-- The event-counting predicate exactly as claim C2 words it: every final
response qualifies, whatever message it wraps. -/
def claimQualifies : StreamedEvent → Bool
  | .toolCallRequest _ _ => true
  | .textMessage source _ => !(source == "user".toList)
  | .response _ => true
  | .other => false

/-- `on_messages_stream` of TrackableAssistantAgent: for each event produced
by the base stream it tracks the event into history and yields the very
same event; returns (yielded events, final history). -/
def streamOverride (history : List ChatEntry) :
    List StreamedEvent → List StreamedEvent × List ChatEntry
  | [] => ([], history)
  | e :: es =>
      let tail := streamOverride (trackResponse history e) es
      (e :: tail.1, tail.2)

/-- The HTTP response observed by `serper_web_search`. -/
structure HttpResponse where
  status : Nat
  text : PyStr
deriving DecidableEq

/-- `serper_web_search` as a function of the HTTP response it receives; the
function is total, so no exception escapes it. -/
def serper_web_search (resp : HttpResponse) : PyStr :=
  if resp.status ≠ 200 then
    "Error: ".toList ++ (Nat.repr resp.status).toList ++ " - ".toList ++ resp.text
  else resp.text

/-- Modelled from the spec: the agent/conversation-loop instance built by
`initialize_agent`. The library class (RoundRobinGroupChat) is external to
this repository, so only what the spec relies on is modelled: a stable
instance identity and internal conversational state that its reset clears. -/
structure Agent where
  instanceId : Nat
  internalState : List PyStr
deriving DecidableEq

/-- Modelled from the spec: `await st.session_state["agent"].reset()`
"asks the agent to reset internal state" and keeps the same instance. -/
def agentReset (a : Agent) : Agent := { a with internalState := [] }

/-- `st.session_state`: a field is `none` when its key is absent. -/
structure SessionState where
  messages : Option (List ChatEntry)
  agent : Option Agent
  eventLoop : Option Nat
  serperApiKey : Option PyStr
deriving DecidableEq

/-- `reset_chat` from the source: clears "messages" when present and resets
the agent when present; it never rebuilds or drops the agent instance. -/
def reset_chat (s : SessionState) : SessionState :=
  { s with
    messages := match s.messages with
      | some _ => some []
      | none => none,
    agent := s.agent.map agentReset }

/-- One Ready-state render cycle's guard around the Agent Factory:
the factory runs only when no instance is stored; `freshId` stands for the
identity of the instance `initialize_agent` would build, and the returned
flag records whether the factory ran. -/
def ensureAgent (s : SessionState) (freshId : Nat) : SessionState × Bool :=
  match s.agent with
  | some _ => (s, false)
  | none => ({ s with agent := some ⟨freshId, []⟩ }, true)

/-- A sequence of Ready-state render cycles (credential and model present);
returns the final state and how many times the factory ran. -/
def runCycles (s : SessionState) : List Nat → SessionState × Nat
  | [] => (s, 0)
  | fid :: fids =>
      let step := ensureAgent s fid
      let rest := runCycles step.1 fids
      (rest.1, (if step.2 then 1 else 0) + rest.2)

/-- Outcome of one user_query dispatch: whether st.warning ran, whether the
conversation loop was invoked, and the resulting session state. -/
structure QueryOutcome where
  warned : Bool
  invokedLoop : Bool
  state : SessionState
deriving DecidableEq

/-- The user_query handling at the bottom of the script: `if user_query:` is
a Python truthiness test (false for the empty string), then
`if user_query.strip() == "":` warns, else the user entry is appended and
the conversation loop is invoked. -/
def handleUserQuery (s : SessionState) (q : Option PyStr) : QueryOutcome :=
  match q with
  | none => ⟨false, false, s⟩
  | some qs =>
      if qs.isEmpty then ⟨false, false, s⟩
      else if (pyStrip qs).isEmpty then ⟨true, false, s⟩
      else ⟨false, true,
        { s with messages := s.messages.map (· ++ [⟨"user".toList, qs⟩]) }⟩

/-! ## Sanity of the fuel-indexed replace -/

/-- The fuel of `removeTokFuel` is irrelevant once it covers the string. -/
theorem removeTokFuel_congr (f : Nat) : ∀ (g : Nat) (s : PyStr),
    s.length ≤ f → s.length ≤ g → removeTokFuel f s = removeTokFuel g s := by
  induction f with
  | zero =>
      intro g s hf _
      cases s with
      | nil => cases g <;> rfl
      | cons c cs => simp at hf
  | succ f ih =>
      intro g s hf hg
      cases s with
      | nil => cases g <;> rfl
      | cons c cs =>
          cases g with
          | zero => simp at hg
          | succ g =>
              show (if startsWith TERMINATE (c :: cs) then
                  removeTokFuel f ((c :: cs).drop TERMINATE.length)
                else c :: removeTokFuel f cs) =
                (if startsWith TERMINATE (c :: cs) then
                  removeTokFuel g ((c :: cs).drop TERMINATE.length)
                else c :: removeTokFuel g cs)
              simp only [List.length_cons, Nat.succ_le_succ_iff] at hf hg
              have h9 : TERMINATE.length = 9 := rfl
              by_cases hsw : startsWith TERMINATE (c :: cs) = true
              · rw [if_pos hsw, if_pos hsw]
                refine ih g ((c :: cs).drop TERMINATE.length) ?_ ?_ <;>
                  · simp only [List.length_drop, List.length_cons, h9]
                    omega
              · rw [if_neg hsw, if_neg hsw, ih g cs hf hg]

/-- Unfolding equation of `removeTok` on a nonempty string: exactly the
scan of Python's single replace pass. -/
theorem removeTok_cons (c : Char) (cs : PyStr) :
    removeTok (c :: cs) =
      if startsWith TERMINATE (c :: cs) then removeTok ((c :: cs).drop TERMINATE.length)
      else c :: removeTok cs := by
  have e : removeTok (c :: cs)
      = (if startsWith TERMINATE (c :: cs) then
          removeTokFuel cs.length ((c :: cs).drop TERMINATE.length)
        else c :: removeTokFuel cs.length cs) := rfl
  rw [e]
  have h9 : TERMINATE.length = 9 := rfl
  by_cases hsw : startsWith TERMINATE (c :: cs) = true
  · rw [if_pos hsw, if_pos hsw]
    exact removeTokFuel_congr cs.length ((c :: cs).drop TERMINATE.length).length
      ((c :: cs).drop TERMINATE.length)
      (by simp only [List.length_drop, List.length_cons, h9]; omega) le_rfl
  · rw [if_neg hsw, if_neg hsw]
    rfl

/-- The sentinel constant spells the termination literal. -/
theorem TERMINATE_spelling : TERMINATE = "TERMINATE".toList := by decide

/-! ## String lemmas -/

theorem startsWith_self (s : PyStr) : startsWith s s = true := by
  induction s with
  | nil => rfl
  | cons c cs ih => simp [startsWith, ih]

theorem startsWith_append_left (pat a b : PyStr) (h : startsWith pat a = true) :
    startsWith pat (a ++ b) = true := by
  induction pat generalizing a with
  | nil => rfl
  | cons p ps ih =>
      cases a with
      | nil => simp [startsWith] at h
      | cons x a' =>
          simp only [startsWith, Bool.and_eq_true, beq_iff_eq] at h
          simp only [List.cons_append, startsWith, Bool.and_eq_true, beq_iff_eq]
          exact ⟨h.1, ih a' h.2⟩

theorem startsWith_append_of_le (pat a b : PyStr) (hlen : pat.length ≤ a.length)
    (h : startsWith pat (a ++ b) = true) : startsWith pat a = true := by
  induction pat generalizing a with
  | nil => rfl
  | cons p ps ih =>
      cases a with
      | nil => simp at hlen
      | cons x a' =>
          simp only [List.cons_append, startsWith, Bool.and_eq_true, beq_iff_eq] at h
          simp only [startsWith, Bool.and_eq_true, beq_iff_eq]
          simp only [List.length_cons, Nat.succ_le_succ_iff] at hlen
          exact ⟨h.1, ih a' hlen h.2⟩

theorem startsWith_head_mem (pat : PyStr) : ∀ (a b : PyStr) (c : Char),
    a.length < pat.length → startsWith pat (a ++ c :: b) = true → c ∈ pat := by
  induction pat with
  | nil =>
      intro a b c hlen _
      simp at hlen
  | cons p ps ih =>
      intro a b c hlen h
      cases a with
      | nil =>
          simp only [List.nil_append, startsWith, Bool.and_eq_true, beq_iff_eq] at h
          rw [h.1]
          exact List.mem_cons_self c ps
      | cons x a' =>
          simp only [List.cons_append, startsWith, Bool.and_eq_true, beq_iff_eq] at h
          simp only [List.length_cons, Nat.succ_lt_succ_iff] at hlen
          exact List.mem_cons_of_mem p (ih a' b c hlen h.2)

theorem containsSub_nil_of_ne (pat : PyStr) (hpat : pat ≠ []) :
    containsSub pat [] = false := by
  cases pat with
  | nil => exact absurd rfl hpat
  | cons p ps => rfl

theorem containsSub_cons_guard (pat b : PyStr) (c : Char)
    (hpat : pat ≠ []) (hc : c ∉ pat) :
    containsSub pat (c :: b) = containsSub pat b := by
  cases pat with
  | nil => exact absurd rfl hpat
  | cons p ps =>
      have hpc : (p == c) = false := by
        simp only [beq_eq_false_iff_ne]
        intro e
        exact hc (by rw [e] at *; exact List.mem_cons_self c ps)
      have e1 : containsSub (p :: ps) (c :: b)
          = (startsWith (p :: ps) (c :: b) || containsSub (p :: ps) b) := rfl
      rw [e1]
      have e2 : startsWith (p :: ps) (c :: b) = (p == c && startsWith ps b) := rfl
      rw [e2, hpc, Bool.false_and, Bool.false_or]

theorem containsSub_append_cons (pat : PyStr) (a b : PyStr) (c : Char)
    (hpat : pat ≠ []) (hc : c ∉ pat) :
    containsSub pat (a ++ c :: b) = (containsSub pat a || containsSub pat b) := by
  induction a with
  | nil =>
      rw [List.nil_append, containsSub_cons_guard pat b c hpat hc,
        containsSub_nil_of_ne pat hpat, Bool.false_or]
  | cons x a' ih =>
      have hsw : startsWith pat (x :: (a' ++ c :: b)) = startsWith pat (x :: a') := by
        cases h2 : startsWith pat (x :: a') with
        | true =>
            have h3 := startsWith_append_left pat (x :: a') (c :: b) h2
            rw [List.cons_append] at h3
            rw [h3]
        | false =>
            cases h1 : startsWith pat (x :: (a' ++ c :: b)) with
            | false => rfl
            | true =>
                rcases Nat.lt_or_ge (x :: a').length pat.length with hl | hl
                · have h4 : startsWith pat ((x :: a') ++ c :: b) = true := by
                    rw [List.cons_append]; exact h1
                  exact absurd (startsWith_head_mem pat (x :: a') b c hl h4) hc
                · have h4 : startsWith pat ((x :: a') ++ c :: b) = true := by
                    rw [List.cons_append]; exact h1
                  have h5 := startsWith_append_of_le pat (x :: a') (c :: b) hl h4
                  rw [h5] at h2
                  simp at h2
      have e1 : containsSub pat ((x :: a') ++ c :: b)
          = (startsWith pat (x :: (a' ++ c :: b)) || containsSub pat (a' ++ c :: b)) := rfl
      have e2 : containsSub pat (x :: a')
          = (startsWith pat (x :: a') || containsSub pat a') := rfl
      rw [e1, e2, hsw, ih, Bool.or_assoc]

theorem containsSub_append_right (pat a b : PyStr) (h : containsSub pat b = true) :
    containsSub pat (a ++ b) = true := by
  induction a with
  | nil => simpa using h
  | cons x a' ih =>
      have e : containsSub pat ((x :: a') ++ b)
          = (startsWith pat (x :: (a' ++ b)) || containsSub pat (a' ++ b)) := rfl
      rw [e, ih, Bool.or_true]

theorem containsSub_of_startsWith (pat s : PyStr) (h : startsWith pat s = true) :
    containsSub pat s = true := by
  cases s with
  | nil =>
      cases pat with
      | nil => rfl
      | cons p ps => simp [startsWith] at h
  | cons c cs =>
      have e : containsSub pat (c :: cs)
          = (startsWith pat (c :: cs) || containsSub pat cs) := rfl
      rw [e, h, Bool.true_or]

theorem containsSub_factor (pat a b : PyStr) :
    containsSub pat (a ++ (pat ++ b)) = true :=
  containsSub_append_right pat a (pat ++ b)
    (containsSub_of_startsWith pat (pat ++ b)
      (startsWith_append_left pat pat b (startsWith_self pat)))

theorem joinSep_factor {α : Type} (sep : PyStr) (f : α → PyStr) (l : List α) (x : α)
    (h : x ∈ l) : ∃ u v, joinSep sep (l.map f) = u ++ (f x ++ v) := by
  induction l with
  | nil => simp at h
  | cons y ys ih =>
      rcases List.mem_cons.mp h with rfl | hmem
      · cases ys with
        | nil => exact ⟨[], [], by simp [joinSep]⟩
        | cons z zs =>
            refine ⟨[], sep ++ joinSep sep ((z :: zs).map f), ?_⟩
            simp [joinSep, List.append_assoc]
      · obtain ⟨u, v, huv⟩ := ih hmem
        cases ys with
        | nil => simp at hmem
        | cons z zs =>
            refine ⟨f y ++ sep ++ u, v, ?_⟩
            simp only [List.map_cons, joinSep] at huv ⊢
            rw [huv]
            simp [List.append_assoc]

theorem joinSep_bullet_eq (calls : List ToolCall) (h : calls ≠ []) :
    "\n- ".toList ++ joinSep "\n- ".toList (calls.map formatToolCall)
      = bulletConcat calls := by
  induction calls with
  | nil => exact absurd rfl h
  | cons tc tcs ih =>
      cases tcs with
      | nil => simp [joinSep, bulletConcat]
      | cons y ys =>
          have e := ih (by simp)
          have e1 : bulletConcat (tc :: y :: ys)
              = "\n- ".toList ++ formatToolCall tc ++ bulletConcat (y :: ys) := rfl
          have e2 : joinSep "\n- ".toList ((tc :: y :: ys).map formatToolCall)
              = formatToolCall tc ++ "\n- ".toList
                  ++ joinSep "\n- ".toList ((y :: ys).map formatToolCall) := rfl
          rw [e1, e2, ← e]
          simp [List.append_assoc]

/-- Entry-count contribution of a single event. -/
theorem length_trackResponse (history : List ChatEntry) (e : StreamedEvent) :
    (trackResponse history e).length
      = history.length + (if rendersEntry e then 1 else 0) := by
  cases e with
  | toolCallRequest s calls => simp [trackResponse, rendersEntry]
  | textMessage s c =>
      by_cases h : s = "user".toList
      · have h' : s = ['u', 's', 'e', 'r'] := h
        simp [trackResponse, rendersEntry, h']
      · have h' : ¬s = ['u', 's', 'e', 'r'] := h
        simp [trackResponse, rendersEntry, h']
  | response w => cases w <;> simp [trackResponse, rendersEntry]
  | other => simp [trackResponse, rendersEntry]

/-! ## Claims -/

/-- C1 (corrected). The original claim — the sentinel token never appears in
a text-derived Chat Entry's content whenever the input content contains it in
any casing/position — is false: the single-pass removal can re-form the
token, and other casings are untouched. What holds is this exact
characterization: the sentinel appears in the displayed text iff it appears
in the message source or survives the removal-and-strip processing of the
content. -/
theorem C1_sentinel_characterization (source content : PyStr) :
    containsSub TERMINATE (formatTextMessage source content) =
      (containsSub TERMINATE source ||
        containsSub TERMINATE (pyStrip (removeTok content))) := by
  have hT : TERMINATE ≠ [] := by decide
  have h1 : ("**[".toList : PyStr) = ['*', '*', '['] := rfl
  have h2 : ("]**\n".toList : PyStr) = [']', '*', '*', '\n'] := rfl
  have e : formatTextMessage source content =
      '*' :: '*' :: '[' ::
        (source ++ ']' :: '*' :: '*' :: '\n' :: pyStrip (removeTok content)) := by
    simp only [formatTextMessage, h1, h2, List.cons_append, List.nil_append,
      List.append_assoc]
  rw [e]
  rw [containsSub_cons_guard _ _ '*' hT (by decide)]
  rw [containsSub_cons_guard _ _ '*' hT (by decide)]
  rw [containsSub_cons_guard _ _ '[' hT (by decide)]
  rw [containsSub_append_cons TERMINATE source _ ']' hT (by decide)]
  rw [containsSub_cons_guard _ _ '*' hT (by decide)]
  rw [containsSub_cons_guard _ _ '*' hT (by decide)]
  rw [containsSub_cons_guard _ _ '\n' hT (by decide)]

/-- C1 counterexample: the content "TERMINTERMINATEATE" contains the sentinel
token, yet the entry the tracker appends for it still contains the sentinel
token (removal of the middle occurrence re-forms it). -/
theorem C1_counterexample :
    containsSub TERMINATE ("TERMINTERMINATEATE".toList) = true ∧
    (trackResponse [] (StreamedEvent.textMessage "agent".toList
        "TERMINTERMINATEATE".toList)).any
      (fun e => containsSub TERMINATE e.content) = true := by
  exact ⟨by decide, by decide⟩

/-- C2 (corrected, amended theorem): the number of entries the tracker
appends over a finite stream equals the number of events that are a
tool-call request, a text message with non-"user" source, or a final
response wrapping a text message; every other event appends zero entries. -/
theorem C2_entry_count (events : List StreamedEvent) (history : List ChatEntry) :
    (trackStream history events).length = history.length + events.countP rendersEntry := by
  induction events generalizing history with
  | nil => simp [trackStream]
  | cons e es ih =>
      have e1 : trackStream history (e :: es)
          = trackStream (trackResponse history e) es := rfl
      rw [e1, ih, length_trackResponse, List.countP_cons]
      cases hre : rendersEntry e <;> simp [hre]
      all_goals omega

/-- C2 counterexample: a final response wrapping a non-text message counts as
a qualifying "final response" under the claim's wording, yet the tracker
appends zero entries for it. -/
theorem C2_counterexample :
    (trackStream [] [StreamedEvent.response WrappedMsg.nonText]).length = 0 ∧
    List.countP claimQualifies [StreamedEvent.response WrappedMsg.nonText] = 1 := by
  exact ⟨rfl, rfl⟩

/-- C3 (confirmed): the search adapter is total (it is a Lean function, so
it never raises); on status 200 it returns the body verbatim, and on any
other status it returns exactly "Error: <status> - <body>". -/
theorem C3_serper_result (resp : HttpResponse) :
    (resp.status = 200 → serper_web_search resp = resp.text) ∧
    (resp.status ≠ 200 → serper_web_search resp =
      "Error: ".toList ++ (Nat.repr resp.status).toList ++ " - ".toList ++ resp.text) := by
  constructor
  · intro h
    simp [serper_web_search, h]
  · intro h
    simp [serper_web_search, h]

/-- C3 witness: status 403 with body "forbidden" yields exactly
"Error: 403 - forbidden", and a 200 body comes back verbatim. -/
theorem C3_witness :
    serper_web_search ⟨403, "forbidden".toList⟩ = "Error: 403 - forbidden".toList ∧
    serper_web_search ⟨200, "results".toList⟩ = "results".toList := by
  constructor
  · have h := (C3_serper_result ⟨403, "forbidden".toList⟩).2 (by decide)
    rw [h]
    decide
  · exact (C3_serper_result ⟨200, "results".toList⟩).1 rfl

/-- C4 (corrected, amended theorem): for a text message whose source is not
"user", the tracker appends exactly one entry, of role "assistant", whose
content is "**[<source>]**\n" (the markdown-bold form, not the claim's plain
"[<source>]\n") followed by the content with the exact-case sentinel
occurrences removed in one pass and surrounding whitespace trimmed. -/
theorem C4_text_entry (history : List ChatEntry) (source content : PyStr)
    (h : source ≠ "user".toList) :
    trackResponse history (.textMessage source content) =
      history ++ [⟨"assistant".toList,
        "**[".toList ++ source ++ "]**\n".toList ++ pyStrip (removeTok content)⟩] := by
  have h' : ¬source = ['u', 's', 'e', 'r'] := h
  simp [trackResponse, h', formatTextMessage]

/-- C4 witness: a concrete non-user text message produces the bold-bracketed,
stripped entry. -/
theorem C4_witness :
    trackResponse [] (StreamedEvent.textMessage "agent".toList
        " hi TERMINATE ".toList) =
      [⟨"assistant".toList, "**[agent]**\nhi".toList⟩] := by
  have h := C4_text_entry [] "agent".toList " hi TERMINATE ".toList (by decide)
  rw [h]
  decide

/-- C4 counterexample: the appended content is not the claim's
"[<source>]\n<stripped content>" — the source is rendered in markdown bold. -/
theorem C4_counterexample :
    (trackResponse [] (StreamedEvent.textMessage "agent".toList "hi".toList)).map
      ChatEntry.content ≠ ["[agent]\nhi".toList] := by
  decide

/-- C5 (corrected, amended theorem): for a tool-call request with at least
one call the tracker appends exactly one entry whose content starts with
"**[<source>] Tool calls requested:**" (markdown-bold, not the claim's plain
header) and continues with exactly one "\n- " bulleted segment per requested
call, each containing that call's tool name and its arguments. -/
theorem C5_toolcall_entry (history : List ChatEntry) (source : PyStr)
    (calls : List ToolCall) (h : calls ≠ []) :
    trackResponse history (.toolCallRequest source calls) =
      history ++ [⟨"assistant".toList,
        ("**[".toList ++ source ++ "] Tool calls requested:**".toList)
          ++ bulletConcat calls⟩] ∧
    startsWith ("**[".toList ++ source ++ "] Tool calls requested:**".toList)
      (formatToolCallRequest source calls) = true ∧
    ∀ tc ∈ calls,
      containsSub tc.name (formatToolCallRequest source calls) = true ∧
      containsSub tc.arguments (formatToolCallRequest source calls) = true := by
  have hsplit : ("] Tool calls requested:**\n- ".toList : PyStr)
      = "] Tool calls requested:**".toList ++ "\n- ".toList := by decide
  have hfmt : formatToolCallRequest source calls
      = ("**[".toList ++ source ++ "] Tool calls requested:**".toList)
          ++ bulletConcat calls := by
    rw [formatToolCallRequest, hsplit, ← joinSep_bullet_eq calls h]
    simp [List.append_assoc]
  refine ⟨?_, ?_, ?_⟩
  · simp [trackResponse, hfmt]
  · rw [hfmt]
    exact startsWith_append_left _ _ _ (startsWith_self _)
  · intro tc htc
    obtain ⟨u, v, huv⟩ := joinSep_factor "\n- ".toList formatToolCall calls tc htc
    constructor
    · have e : formatToolCallRequest source calls
          = ("**[".toList ++ source ++ "] Tool calls requested:**\n- ".toList
              ++ u ++ "`".toList)
            ++ (tc.name ++ ("` with arguments `".toList ++ tc.arguments
              ++ ")`".toList ++ v)) := by
        rw [formatToolCallRequest, huv, formatToolCall]
        simp [List.append_assoc]
      rw [e]
      exact containsSub_factor _ _ _
    · have e : formatToolCallRequest source calls
          = ("**[".toList ++ source ++ "] Tool calls requested:**\n- ".toList
              ++ u ++ "`".toList ++ tc.name ++ "` with arguments `".toList)
            ++ (tc.arguments ++ (")`".toList ++ v)) := by
        rw [formatToolCallRequest, huv, formatToolCall]
        simp [List.append_assoc]
      rw [e]
      exact containsSub_factor _ _ _

/-- C5 witness: one concrete requested call yields the single bold-headed
bulleted entry, and its tool name occurs in the rendered content. -/
theorem C5_witness :
    trackResponse [] (StreamedEvent.toolCallRequest "agent".toList
        [⟨"serper_web_search".toList, "q".toList⟩]) =
      [⟨"assistant".toList,
        ("**[agent] Tool calls requested:**\n- " ++
          "`serper_web_search` with arguments `q)`").toList⟩] ∧
    containsSub "serper_web_search".toList
      (formatToolCallRequest "agent".toList
        [⟨"serper_web_search".toList, "q".toList⟩]) = true := by
  have h := C5_toolcall_entry [] "agent".toList
      [⟨"serper_web_search".toList, "q".toList⟩] (by decide)
  constructor
  · rw [h.1]
    decide
  · exact (h.2.2 ⟨"serper_web_search".toList, "q".toList⟩ (by decide)).1

/-- C5 counterexample: the appended entry's content does not start with the
claim's plain "[<source>] Tool calls requested:" header (it is bold). -/
theorem C5_counterexample :
    (trackResponse [] (StreamedEvent.toolCallRequest "agent".toList
        [⟨"search".toList, "q".toList⟩])).map
      (fun e => startsWith "[agent] Tool calls requested:".toList e.content)
      = [false] := by
  decide

/-- C6 (confirmed): the overridden streaming handler yields exactly the base
stream's events, element for element and unchanged, while mirroring them into
history — so a downstream termination rule observes the original content. -/
theorem C6_passthrough (history : List ChatEntry) (events : List StreamedEvent) :
    (streamOverride history events).1 = events ∧
    (streamOverride history events).2 = trackStream history events := by
  induction events generalizing history with
  | nil => exact ⟨rfl, rfl⟩
  | cons e es ih =>
      have h := ih (trackResponse history e)
      refine ⟨?_, ?_⟩
      · simp [streamOverride, h.1]
      · simp [streamOverride, trackStream, h.2]

/-- C7 (confirmed): reset is idempotent on the session state, and the agent
instance reference survives any number of resets (the agent's own reset is
modelled from the spec as clearing internal state in place). -/
theorem C7_reset_idempotent (s : SessionState) (n : Nat) :
    reset_chat (reset_chat s) = reset_chat s ∧
    (reset_chat^[n] s).agent.map Agent.instanceId = s.agent.map Agent.instanceId := by
  constructor
  · obtain ⟨m, a, el, k⟩ := s
    cases m <;> cases a <;> simp [reset_chat, agentReset]
  · induction n generalizing s with
    | zero => rfl
    | succ k ih =>
        rw [Function.iterate_succ_apply, ih (reset_chat s)]
        cases ha : s.agent <;> simp [reset_chat, ha, agentReset]

/-- C8 (corrected, amended theorem): on input whose strip is empty the
orchestrator appends nothing, does not invoke the conversation loop, and
leaves the state unchanged; the warning is shown exactly when the input is
nonempty (whitespace-only) — the empty string is falsy in Python and is
silently ignored without the claim's warning. -/
theorem C8_blank_input (s : SessionState) (q : PyStr)
    (h : (pyStrip q).isEmpty = true) :
    handleUserQuery s (some q) = ⟨!q.isEmpty, false, s⟩ := by
  cases q with
  | nil => rfl
  | cons c cs => simp [handleUserQuery, h]

/-- C8 witness: a single-space input warns, does not invoke the loop, and
leaves the state unchanged. -/
theorem C8_witness :
    handleUserQuery ⟨some [], none, none, none⟩ (some [' ']) =
      ⟨true, false, ⟨some [], none, none, none⟩⟩ := by
  have h := C8_blank_input ⟨some [], none, none, none⟩ [' '] (by decide)
  rw [h]
  rfl

/-- C8 counterexample: for the empty input the claim demands a user-visible
warning, but the code's truthiness guard skips the warning branch entirely. -/
theorem C8_counterexample :
    (handleUserQuery ⟨some [], none, none, none⟩ (some [])).warned = false := by
  rfl

/-- C9 (confirmed): across any sequence of Ready-state render cycles the
Agent Factory runs at most once, and once an instance is stored every later
cycle reuses exactly that instance and the factory never runs again. -/
theorem C9_factory_once (s : SessionState) (fids : List Nat) :
    (runCycles s fids).2 ≤ 1 ∧
    (∀ a, s.agent = some a →
      (runCycles s fids).1.agent = some a ∧ (runCycles s fids).2 = 0) := by
  induction fids generalizing s with
  | nil =>
      refine ⟨by simp [runCycles], fun a ha => ⟨?_, rfl⟩⟩
      simpa [runCycles] using ha
  | cons fid fids ih =>
      cases ha : s.agent with
      | some a =>
          have h1 : ensureAgent s fid = (s, false) := by simp [ensureAgent, ha]
          have h3 := (ih s).2 a ha
          constructor
          · simp [runCycles, h1, h3.2]
          · intro a' ha'
            rw [Option.some.injEq] at ha'
            subst ha'
            exact ⟨by simp [runCycles, h1, h3.1], by simp [runCycles, h1, h3.2]⟩
      | none =>
          have h1 : ensureAgent s fid = ({ s with agent := some ⟨fid, []⟩ }, true) := by
            simp [ensureAgent, ha]
          have h2 := (ih { s with agent := some ⟨fid, []⟩ }).2 ⟨fid, []⟩ rfl
          constructor
          · simp [runCycles, h1, h2.2]
          · intro a' ha'
            exact absurd ha' (by simp)

/-- C9 witness: starting from a state that already stores instance 7, three
further cycles run the factory zero times and keep instance 7. -/
theorem C9_witness :
    (runCycles ⟨some [], some ⟨7, []⟩, some 0, none⟩ [1, 2, 3]).2 ≤ 1 ∧
    (runCycles ⟨some [], some ⟨7, []⟩, some 0, none⟩ [1, 2, 3]).1.agent = some ⟨7, []⟩ ∧
    (runCycles ⟨some [], some ⟨7, []⟩, some 0, none⟩ [1, 2, 3]).2 = 0 := by
  have h := C9_factory_once ⟨some [], some ⟨7, []⟩, some 0, none⟩ [1, 2, 3]
  exact ⟨h.1, (h.2 ⟨7, []⟩ rfl).1, (h.2 ⟨7, []⟩ rfl).2⟩

/-- C10 (confirmed): a final response wrapping a text message is always
appended, whatever the wrapped source (including "user"); a plain text
message is appended exactly when its source is not "user"; and every entry
the tracker ever appends has role "assistant". -/
theorem C10_response_source_and_role (history : List ChatEntry)
    (source content : PyStr) (ev : StreamedEvent) :
    (trackResponse history (.response (.text source content))).length
      = history.length + 1 ∧
    (trackResponse history (.textMessage source content)).length =
      history.length + (if source = "user".toList then 0 else 1) ∧
    ((trackResponse history ev).drop history.length).all
      (fun e => e.role == "assistant".toList) = true := by
  refine ⟨by simp [trackResponse], ?_, ?_⟩
  · by_cases h : source = "user".toList
    · have h' : source = ['u', 's', 'e', 'r'] := h
      simp [trackResponse, h']
    · have h' : ¬source = ['u', 's', 'e', 'r'] := h
      simp [trackResponse, h']
  · cases ev with
    | toolCallRequest s calls => simp [trackResponse, List.drop_left]
    | textMessage s c =>
        by_cases h : s = "user".toList
        · have h' : s = ['u', 's', 'e', 'r'] := h
          simp [trackResponse, h', List.drop_length]
        · have h' : ¬s = ['u', 's', 'e', 'r'] := h
          simp [trackResponse, h', List.drop_left]
    | response w =>
        cases w with
        | text s c => simp [trackResponse, List.drop_left]
        | nonText => simp [trackResponse, List.drop_length]
    | other => simp [trackResponse, List.drop_length]
